import Mathlib

/-!
Shallow embedding of the Order & Resource-Booking Consistency Engine of the
mohspitality backend, together with proofs about the claims of its
specification.

The embedding translates the Python services into pure Lean functions:

* `create_order`, `update_order`, `split_order`, `delete_split_order` embed
  the functions of `app/services/order_service.py`;
* `is_room_available` embeds the function of `app/services/event_service.py`;
* `split_bill` is modelled from the spec (the service function is absent
  from the sources; only its route caller and response schemas exist).

Monetary amounts (`Decimal` in the source) are represented by `ℚ`; record
quantities (Python `int`) by `ℤ`; primary keys (integers and UUIDs) by `ℕ`.
The database session is an explicit `DBState`; reaching a `db.commit()`
replaces the state, while an exception raised before a commit leaves the
previously committed state unchanged (the session is rolled back when the
request-scoped session closes).  Collaborator calls that can fail
(`get_order_payment_link`, which raises an `HTTPException` on failure) are
passed in as `Option String` parameters: `some url` is a successful call and
`none` is a raised exception.
-/

/-- Embeds the `Item` model (`app/models/models.py`): a stockable product. -/
structure Item where
  id : ℕ
  name : String
  price : ℚ
  quantity : ℤ
deriving Repr, DecidableEq

/-- Embeds the `OrderItem` model: one line of an order, with the price
snapshotted at order time. -/
structure OrderItem where
  item_id : ℕ
  quantity : ℤ
  price : ℚ
deriving Repr, DecidableEq

/-- Embeds `OrderStatusEnum` of `app/schemas/order_schema.py`. -/
inductive OrderStatusEnum where
  | NEW
  | IN_PROGRESS
  | READY
  | COMPLETED
  | CANCELLED
deriving Repr, DecidableEq

/-- Embeds the `Order` model, restricted to the fields the order services
read or write. -/
structure Order where
  id : ℕ
  guest_id : ℕ
  company_id : ℕ
  original_order_id : Option ℕ
  is_split : Bool
  status : OrderStatusEnum
  total_amount : ℚ
  payment_url : Option String
  order_items : List OrderItem
deriving Repr, DecidableEq

/-- One line of an `OrderCreate` / `OrderSplitRequest` payload
(`OrderItemCreate` and `OrderItemSplit` in `app/schemas/order_schema.py`). -/
structure CartLine where
  item_id : ℕ
  quantity : ℤ
deriving Repr, DecidableEq

/-- The committed database state seen by the order services. -/
structure DBState where
  items : List Item
  orders : List Order
deriving Repr, DecidableEq

/-- The error responses (`HTTPException` details) the order services raise. -/
inductive OrderErr where
  | noValidItems
  | itemNotFound (item_id : ℕ)
  | insufficientStock (name : String)
  | orderNotFound
  | itemsMissing
  | itemNotInOrder (item_id : ℕ)
  | invalidQuantity (item_id : ℕ)
  | insufficientQuantity (item_id : ℕ)
  | notSplitOrder
  | paymentLinkFailed
  | internalError
deriving Repr, DecidableEq

deriving instance DecidableEq for Except

/-- `items_dict.get(item_id)`: the fetched items are keyed by primary key,
so lookup is the first (unique) item with the given id. -/
def findItem (items : List Item) (id : ℕ) : Option Item :=
  items.find? (fun i => i.id == id)

/-- `item.quantity -= item_data.quantity`: the ORM object is shared, so the
decrement is visible to every later lookup of the same id. -/
def decrementStock (items : List Item) (id : ℕ) (q : ℤ) : List Item :=
  items.map (fun i => if i.id == id then { i with quantity := i.quantity - q } else i)

/-- Embeds the validation/decrement loop of `create_order`
(`order_service.py` lines 56-87): for each cart line, look the item up,
fail with `ItemNotFound` when absent and `InsufficientStock` when the stock
is smaller than the requested quantity, otherwise decrement the stock,
snapshot the current price into a new `OrderItem` and accumulate
`price * quantity` into the total. -/
def processCart (items : List Item) : List CartLine → Except OrderErr (List Item × List OrderItem × ℚ)
  | [] => .ok (items, [], 0)
  | line :: rest =>
    match findItem items line.item_id with
    | none => .error (.itemNotFound line.item_id)
    | some item =>
      if item.quantity < line.quantity then
        .error (.insufficientStock item.name)
      else
        match processCart (decrementStock items line.item_id line.quantity) rest with
        | .error e => .error e
        | .ok (items', ois, total) =>
          .ok (items', ⟨item.id, line.quantity, item.price⟩ :: ois,
               item.price * (line.quantity : ℚ) + total)

/-- Embeds `create_order` (`order_service.py` lines 27-164).  The first
`db.commit()` persists the decremented stock and the new order (with
`payment_url` and `original_order_id` still unset); the payment-link call
then either succeeds (`some url`), after which the second commit attaches
the link and sets `original_order_id` to the order's own id, or raises
(`none`), which re-raises past the commit so the caller sees an error while
the committed order remains. -/
def create_order (st : DBState) (cart : List CartLine) (guest_id company_id newId : ℕ)
    (paymentLink : Option String) : Except OrderErr Order × DBState :=
  if (st.items.filter (fun i => (cart.map (fun l => l.item_id)).contains i.id)) = [] then
    (.error .noValidItems, st)
  else
    match processCart st.items cart with
    | .error e => (.error e, st)
    | .ok (items', ois, total) =>
      let order0 : Order :=
        { id := newId, guest_id := guest_id, company_id := company_id,
          original_order_id := none, is_split := false, status := .NEW,
          total_amount := total, payment_url := none, order_items := ois }
      let st1 : DBState := { items := items', orders := st.orders ++ [order0] }
      match paymentLink with
      | none => (.error .paymentLinkFailed, st1)
      | some url =>
        let order1 := { order0 with payment_url := some url, original_order_id := some newId }
        (.ok order1, { items := items', orders := st.orders ++ [order1] })

/-- `select(Order).where(Order.id == order_id)`. -/
def findOrder (orders : List Order) (oid : ℕ) : Option Order :=
  orders.find? (fun o => o.id == oid)

/-- Committing a mutated ORM `Order` object: every row with its id now holds
the new value. -/
def replaceOrder (orders : List Order) (o' : Order) : List Order :=
  orders.map (fun o => if o.id == o'.id then o' else o)

/-- One appended line of `update_order`: a new `OrderItem` at the item's
current price (`OrderItem(item_id=item.id, quantity=..., price=item.price)`). -/
def currentPriceLine (items : List Item) (l : CartLine) : Option OrderItem :=
  (findItem items l.item_id).map (fun item => ⟨item.id, l.quantity, item.price⟩)

/-- The appended lines of `update_order`: `none` when some payload id has
no matching item (`missing_items` is non-empty), otherwise one new
`OrderItem` per payload line. -/
def linesFor (items : List Item) : List CartLine → Option (List OrderItem)
  | [] => some []
  | l :: rest =>
    match currentPriceLine items l, linesFor items rest with
    | some oi, some ois => some (oi :: ois)
    | _, _ => none

/-- Embeds `update_order` (`order_service.py` lines 167-268): fetch the
order (404 when absent), fetch the new items and fail when any id is
missing, then append one new `OrderItem` per payload line — never merging
with existing lines — at the item's current price, add the sum of
`price * quantity` to the order total, and commit.  Item stock is neither
checked nor changed. -/
def update_order (st : DBState) (order_id : ℕ) (cart : List CartLine) :
    Except OrderErr Order × DBState :=
  match findOrder st.orders order_id with
  | none => (.error .orderNotFound, st)
  | some order =>
    match linesFor st.items cart with
    | none => (.error .itemsMissing, st)
    | some added =>
      let newTotal := (added.map (fun oi => oi.price * (oi.quantity : ℚ))).sum
      let order' := { order with
        order_items := order.order_items ++ added,
        total_amount := order.total_amount + newTotal }
      (.ok order', { st with orders := replaceOrder st.orders order' })

/-- `{oi.item_id: oi for oi in original_order.order_items}`: a Python dict
comprehension keeps the *last* entry per key, so the lookup returns the
position and value of the last order line with the given item id. -/
def lastMatch : List OrderItem → ℕ → Option (ℕ × OrderItem)
  | [], _ => none
  | oi :: rest, id =>
    match lastMatch rest id with
    | some (k, x) => some (k + 1, x)
    | none => if oi.item_id == id then some (0, oi) else none

/-- Embeds the validation/collection loop of `split_order`
(`order_service.py` lines 367-408).  Each requested line is checked against
the *unmodified* map of original lines (the dict is built once and the
decrements only happen in the second loop), and yields the new split line at
the snapshotted price, its amount, and the pending update
`(position, split_quantity, item_amount)`. -/
def splitCore (ois : List OrderItem) : List CartLine → Except OrderErr (List OrderItem × ℚ × List (ℕ × ℤ × ℚ))
  | [] => .ok ([], 0, [])
  | r :: rest =>
    match lastMatch ois r.item_id with
    | none => .error (.itemNotInOrder r.item_id)
    | some (k, oi) =>
      if r.quantity ≤ 0 then .error (.invalidQuantity r.item_id)
      else if oi.quantity < r.quantity then .error (.insufficientQuantity r.item_id)
      else
        match splitCore ois rest with
        | .error e => .error e
        | .ok (nois, t, upds) =>
          .ok (⟨oi.item_id, r.quantity, oi.price⟩ :: nois,
               oi.price * (r.quantity : ℚ) + t,
               (k, r.quantity, oi.price * (r.quantity : ℚ)) :: upds)

/-- One iteration of the update loop of `split_order` (lines 427-437):
`original_item.quantity -= split_quantity`, and the line is marked for
deletion when the resulting quantity is `<= 0`.  The boolean flag is the
pending `db.delete`. -/
def modifyAt : List (OrderItem × Bool) → ℕ → ℤ → List (OrderItem × Bool)
  | [], _, _ => []
  | (oi, d) :: rest, 0, q =>
    ({ oi with quantity := oi.quantity - q }, d || decide (oi.quantity - q ≤ 0)) :: rest
  | x :: rest, k + 1, q => x :: modifyAt rest k q

/-- The update loop of `split_order`, applied sequentially to the flagged
original lines.  Python mutates the shared ORM objects, so two updates to
the same position accumulate. -/
def applySplit (flagged : List (OrderItem × Bool)) : List (ℕ × ℤ × ℚ) → List (OrderItem × Bool)
  | [] => flagged
  | (k, q, _) :: rest => applySplit (modifyAt flagged k q) rest

/-- The original order's lines after the update loop and the commit: the
lines marked for deletion are gone. -/
def survivors (flagged : List (OrderItem × Bool)) : List OrderItem :=
  (flagged.filter (fun p => !p.2)).map (fun p => p.1)

/-- Embeds `split_order` (`order_service.py` lines 323-498): load the
original order of the current guest (404 when absent), validate and collect
the requested lines against the dict of original lines, build the split
order (`is_split = True`, `original_order_id` = the original's id) carrying
the requested lines at the snapshotted prices, then reduce each selected
original line and the original's total, request the two payment links
(either failure raises, and the whole transaction is rolled back), and
commit both orders. -/
def split_order (st : DBState) (order_id guest_id newId : ℕ) (req : List CartLine)
    (splitLink origLink : Option String) : Except OrderErr Order × DBState :=
  match st.orders.find? (fun o => o.id == order_id && o.guest_id == guest_id) with
  | none => (.error .orderNotFound, st)
  | some original =>
    match splitCore original.order_items req with
    | .error e => (.error e, st)
    | .ok (nois, total, upds) =>
      let splitOrd : Order :=
        { id := newId, guest_id := original.guest_id, company_id := original.company_id,
          original_order_id := some original.id, is_split := true, status := .NEW,
          total_amount := total, payment_url := none, order_items := nois }
      let appliedItems :=
        survivors (applySplit (original.order_items.map (fun oi => (oi, false))) upds)
      let original' := { original with
        order_items := appliedItems,
        total_amount := original.total_amount - (upds.map (fun (u : ℕ × ℤ × ℚ) => u.2.2)).sum }
      match splitLink, origLink with
      | some u1, some u2 =>
        let splitOrd' := { splitOrd with payment_url := some u1 }
        let original'' := { original' with payment_url := some u2 }
        (.ok splitOrd', { st with orders := replaceOrder st.orders original'' ++ [splitOrd'] })
      | _, _ => (.error .paymentLinkFailed, st)

/-- One iteration of the merge loop of `delete_split_order`
(`order_service.py` lines 605-626): `next(...)` finds the *first* original
line with the same item id and increases its quantity; when there is none,
a new line at the split's snapshotted price is appended. -/
def mergeStep : List OrderItem → OrderItem → List OrderItem
  | [], si => [⟨si.item_id, si.quantity, si.price⟩]
  | oi :: rest, si =>
    if oi.item_id == si.item_id then
      { oi with quantity := oi.quantity + si.quantity } :: rest
    else
      oi :: mergeStep rest si

/-- The merge loop: appended lines are part of the live relationship list,
so later split lines can merge into them. -/
def mergeAll (ois : List OrderItem) : List OrderItem → List OrderItem
  | [] => ois
  | si :: rest => mergeAll (mergeStep ois si) rest

/-- Embeds `delete_split_order` (`order_service.py` lines 564-658): load the
guest's split order (`is_split == True`; 404 when absent), reject when its
`original_order_id` is unset, load the original order (a missing original
crashes with an `AttributeError`, surfaced as a 500 after rollback), merge
every split line back into the original order while increasing its total by
`price * quantity`, regenerate the original's payment link (a raised
exception rolls the transaction back), delete the split order and commit.
Item stock is never touched. -/
def delete_split_order (st : DBState) (split_order_id guest_id : ℕ)
    (paymentLink : Option String) : Except OrderErr Unit × DBState :=
  match st.orders.find? (fun o => o.id == split_order_id && o.guest_id == guest_id && o.is_split) with
  | none => (.error .orderNotFound, st)
  | some splitOrd =>
    match splitOrd.original_order_id with
    | none => (.error .notSplitOrder, st)
    | some oid =>
      match findOrder st.orders oid with
      | none => (.error .internalError, st)
      | some original =>
        let merged := mergeAll original.order_items splitOrd.order_items
        let newTotal := original.total_amount +
          (splitOrd.order_items.map (fun si => si.price * (si.quantity : ℚ))).sum
        match paymentLink with
        | none => (.error .paymentLinkFailed, st)
        | some url =>
          let original' := { original with
            order_items := merged, total_amount := newTotal, payment_url := some url }
          (.ok (), { st with
            orders := (replaceOrder st.orders original').filter (fun o => o.id != split_order_id) })

/-- Embeds `EventStatus` of `app/schemas/event_schema.py`. -/
inductive EventStatus where
  | PENDING
  | CONFIRMED
  | IN_PROGRESS
  | COMPLETED
  | CANCELLED
deriving Repr, DecidableEq, BEq

/-- Embeds the `EventBooking` model, restricted to the fields
`is_room_available` reads.  Dates are day numbers and times are minutes
within the day. -/
structure EventBooking where
  id : ℕ
  meeting_room_id : ℕ
  status : EventStatus
  arrival_date : ℕ
  arrival_time : ℕ
  end_date : ℕ
  end_time : ℕ
deriving Repr, DecidableEq

/-- `datetime.combine(date, time)`: a calendar instant, compared
lexicographically like Python `datetime`. -/
structure DT where
  d : ℕ
  t : ℕ
deriving Repr, DecidableEq

/-- Python `datetime` `<=`. -/
def DT.le (a b : DT) : Bool :=
  decide (a.d < b.d) || (a.d == b.d && decide (a.t ≤ b.t))

/-- Python `datetime` `<`. -/
def DT.lt (a b : DT) : Bool :=
  decide (a.d < b.d) || (a.d == b.d && decide (a.t < b.t))

/-- The SQL filter of `is_room_available` (`event_service.py` lines
1108-1149): same room, status not CANCELLED, the same-day or multi-day
date/time pre-filter, and the optional exclusion of one booking id. -/
def bookingQueryFilter (room_id arrival_date end_date' arrival_time end_time : ℕ)
    (exclude_booking_id : Option ℕ) (b : EventBooking) : Bool :=
  b.meeting_room_id == room_id &&
  !(b.status == .CANCELLED) &&
  ((b.arrival_date == arrival_date &&
      decide (b.arrival_time < end_time) && decide (b.end_time > arrival_time)) ||
   ((decide (b.arrival_date ≥ arrival_date) && decide (b.arrival_date ≤ end_date')) &&
    ((decide (b.end_date ≥ arrival_date) && decide (b.end_date ≤ end_date')) ||
     (decide (b.arrival_date ≤ arrival_date) && decide (b.end_date ≥ end_date'))))) &&
  (match exclude_booking_id with
   | some x => b.id != x
   | none => true)

/-- The in-memory conflict test of `is_room_available` (lines 1155-1169):
`(arrival_dt <= booking_end and end_dt >= booking_start) or
 (booking_start <= end_dt and booking_end >= arrival_dt)` — closed-interval
comparisons on the combined datetimes. -/
def loopConflict (arrival_dt end_dt : DT) (b : EventBooking) : Bool :=
  let booking_start : DT := ⟨b.arrival_date, b.arrival_time⟩
  let booking_end : DT := ⟨b.end_date, b.end_time⟩
  (DT.le arrival_dt booking_end && DT.le booking_start end_dt) ||
  (DT.le booking_start end_dt && DT.le arrival_dt booking_end)

/-- The error raised by `is_room_available` for an invalid window. -/
inductive RoomErr where
  | invalidWindow
deriving Repr, DecidableEq

/-- Embeds `is_room_available` (`event_service.py` lines 1060-1171):
default the end date to the arrival date, reject a window whose end is not
strictly after its start, fetch the non-cancelled bookings of the room that
pass the date/time pre-filter, and report the room available iff none of
them passes the in-memory conflict test. -/
def is_room_available (bookings : List EventBooking) (room_id : ℕ)
    (arrival_date arrival_time end_time : ℕ) (end_date : Option ℕ)
    (exclude_booking_id : Option ℕ) : Except RoomErr Bool :=
  let end_date' := end_date.getD arrival_date
  let arrival_dt : DT := ⟨arrival_date, arrival_time⟩
  let end_dt : DT := ⟨end_date', end_time⟩
  if DT.le end_dt arrival_dt then .error .invalidWindow
  else
    let existing_bookings := bookings.filter
      (bookingQueryFilter room_id arrival_date end_date' arrival_time end_time exclude_booking_id)
    .ok (existing_bookings.all (fun b => !(loopConflict arrival_dt end_dt b)))

/-- From the spec's words (section 4.5, rule 3): two windows
`[a_start, a_end)` and `[b_start, b_end)` conflict iff
`a_start < b_end AND b_start < a_end`; touching endpoints do not conflict. -/
def specHalfOpenConflict (a_start a_end b_start b_end : DT) : Bool :=
  DT.lt a_start b_end && DT.lt b_start a_end

/-- `split_type` of a bill-split request (spec section 4.4). -/
inductive SplitType where
  | amount
  | percent
deriving Repr, DecidableEq

/-- A bill-split request `{label, type, value}` (the `BillSplit` schema the
router imports; absent from the sources). -/
structure BillSplit where
  label : String
  split_type : SplitType
  value : ℚ
deriving Repr, DecidableEq

/-- A persisted `OrderSplit` record (spec section 3). -/
structure OrderSplitRec where
  order_id : ℕ
  label : String
  split_type : SplitType
  value : ℚ
  allocated_amount : ℚ
deriving Repr, DecidableEq

/-- The bill-split rejection `SplitMismatch(allocated_sum, total_amount,
remainder)` of spec section 4.4. -/
inductive BillSplitErr where
  | splitMismatch (allocated_sum total_amount remainder : ℚ)
deriving Repr, DecidableEq

/-- The allocation of one request: `value` for type `amount`, else
`total_amount * value / 100`. -/
def allocationOf (total_amount : ℚ) (r : BillSplit) : ℚ :=
  match r.split_type with
  | .amount => r.value
  | .percent => total_amount * r.value / 100

/-- Modelled from the spec: `order_service.split_bill` is called by
`order_router.split_bill` (`order_router.py` lines 136-158) but its
definition is missing from the sources, as is the `BillSplit` schema it
takes.  Following spec section 4.4: compute each request's allocation, and
if the allocations do not sum exactly to the order's total, reject the
whole batch with `SplitMismatch` and persist nothing; on exact equality
create one `OrderSplit` record per request. -/
def split_bill (order_id : ℕ) (total_amount : ℚ) (requests : List BillSplit) :
    Except BillSplitErr (List OrderSplitRec) :=
  let allocated_sum := (requests.map (allocationOf total_amount)).sum
  if allocated_sum = total_amount then
    .ok (requests.map (fun r =>
      { order_id := order_id, label := r.label, split_type := r.split_type,
        value := r.value, allocated_amount := allocationOf total_amount r }))
  else
    .error (.splitMismatch allocated_sum total_amount (total_amount - allocated_sum))

/-- Line-level aggregate: the total quantity an order's lines carry for one
item id. -/
def lineQty (ois : List OrderItem) (id : ℕ) : ℤ :=
  ((ois.filter (fun oi => oi.item_id == id)).map (fun oi => oi.quantity)).sum

/-- Cart-level aggregate: the total quantity requested for one item id. -/
def cartQty (cart : List CartLine) (id : ℕ) : ℤ :=
  ((cart.filter (fun l => l.item_id == id)).map (fun l => l.quantity)).sum

theorem find?_map_pred {α : Type} (f : α → α) (p : α → Bool) (l : List α)
    (hf : ∀ a, p (f a) = p a) : (l.map f).find? p = (l.find? p).map f := by
  induction l with
  | nil => rfl
  | cons a l ih =>
    simp only [List.map_cons, List.find?_cons, hf a]
    cases hpa : p a <;> simp [ih]

theorem findItem_decrementStock (items : List Item) (id : ℕ) (q : ℤ) (id' : ℕ) :
    findItem (decrementStock items id q) id' =
      (findItem items id').map
        (fun it => if it.id == id then { it with quantity := it.quantity - q } else it) := by
  unfold findItem decrementStock
  refine find?_map_pred _ _ _ ?_
  intro a
  by_cases h : a.id = id <;> simp [h]

theorem cartQty_nil (id : ℕ) : cartQty [] id = 0 := rfl

theorem cartQty_cons (l : CartLine) (rest : List CartLine) (id : ℕ) :
    cartQty (l :: rest) id =
      (if l.item_id = id then l.quantity else 0) + cartQty rest id := by
  unfold cartQty
  by_cases h : l.item_id = id <;> simp [h]

theorem processCart_stock (cart : List CartLine) :
    ∀ items items' ois total, processCart items cart = .ok (items', ois, total) →
    ∀ id, findItem items' id =
      (findItem items id).map (fun it => { it with quantity := it.quantity - cartQty cart id }) := by
  induction cart with
  | nil =>
    intro items items' ois total h id
    simp only [processCart, Except.ok.injEq, Prod.mk.injEq] at h
    obtain ⟨h1, -, -⟩ := h
    subst h1
    cases hf : findItem items id <;> simp [cartQty]
  | cons line rest ih =>
    intro items items' ois total h id
    simp only [processCart] at h
    split at h
    · exact absurd h (by simp)
    next item hf =>
      split at h
      · exact absurd h (by simp)
      next hq =>
        split at h
        · exact absurd h (by simp)
        next items₁ ois₁ t₁ hp =>
          simp only [Except.ok.injEq, Prod.mk.injEq] at h
          obtain ⟨h1, -, -⟩ := h
          subst h1
          have hrec := ih _ _ _ _ hp id
          rw [hrec, findItem_decrementStock, Option.map_map]
          cases hf0 : findItem items id with
          | none => simp
          | some it₀ =>
            simp only [Option.map_some', Function.comp_apply]
            have hid₀ : it₀.id = id := by
              have := List.find?_some hf0
              simpa using this
            by_cases heq : line.item_id = id
            · simp only [hid₀, heq, beq_self_eq_true, if_true, cartQty_cons, if_pos heq]
              congr 1
              ring_nf
            · have hne : (it₀.id == line.item_id) = false := by
                simp only [hid₀, beq_eq_false_iff_ne, ne_eq]
                exact fun hx => heq hx.symm
              simp only [hne, Bool.false_eq_true, if_false, cartQty_cons, if_neg heq]
              congr 1
              ring_nf

theorem findItem_price_decrement (items : List Item) (id : ℕ) (q : ℤ) (id' : ℕ) :
    (findItem (decrementStock items id q) id').map (fun it => it.price) =
      (findItem items id').map (fun it => it.price) := by
  rw [findItem_decrementStock, Option.map_map]
  cases findItem items id' with
  | none => rfl
  | some a =>
    simp only [Option.map_some', Function.comp_apply]
    by_cases h : a.id == id <;> simp [h]

theorem processCart_lines (cart : List CartLine) :
    ∀ items items' ois total, processCart items cart = .ok (items', ois, total) →
    List.Forall₂ (fun (l : CartLine) (oi : OrderItem) =>
      oi.item_id = l.item_id ∧ oi.quantity = l.quantity ∧
      (findItem items l.item_id).map (fun it => it.price) = some oi.price) cart ois := by
  induction cart with
  | nil =>
    intro items items' ois total h
    simp only [processCart, Except.ok.injEq, Prod.mk.injEq] at h
    obtain ⟨-, h2, -⟩ := h
    subst h2
    exact List.Forall₂.nil
  | cons line rest ih =>
    intro items items' ois total h
    simp only [processCart] at h
    split at h
    · exact absurd h (by simp)
    next item hf =>
      split at h
      · exact absurd h (by simp)
      next hq =>
        split at h
        · exact absurd h (by simp)
        next items₁ ois₁ t₁ hp =>
          simp only [Except.ok.injEq, Prod.mk.injEq] at h
          obtain ⟨-, h2, -⟩ := h
          subst h2
          refine List.Forall₂.cons ⟨?_, rfl, ?_⟩ ?_
          · have := List.find?_some hf
            simpa using this
          · rw [hf]; rfl
          · have htail := ih _ _ _ _ hp
            refine List.Forall₂.imp ?_ htail
            rintro l oi ⟨h1, h2, h3⟩
            exact ⟨h1, h2, by rw [← findItem_price_decrement items line.item_id line.quantity l.item_id, h3]⟩

theorem processCart_total (cart : List CartLine) :
    ∀ items items' ois total, processCart items cart = .ok (items', ois, total) →
    total = (ois.map (fun oi => oi.price * (oi.quantity : ℚ))).sum := by
  induction cart with
  | nil =>
    intro items items' ois total h
    simp only [processCart, Except.ok.injEq, Prod.mk.injEq] at h
    obtain ⟨-, h2, h3⟩ := h
    subst h2; subst h3
    simp
  | cons line rest ih =>
    intro items items' ois total h
    simp only [processCart] at h
    split at h
    · exact absurd h (by simp)
    next item hf =>
      split at h
      · exact absurd h (by simp)
      next hq =>
        split at h
        · exact absurd h (by simp)
        next items₁ ois₁ t₁ hp =>
          simp only [Except.ok.injEq, Prod.mk.injEq] at h
          obtain ⟨-, h2, h3⟩ := h
          subst h2; subst h3
          simp only [List.map_cons, List.sum_cons]
          rw [ih _ _ _ _ hp]

theorem processCart_prefix (cart : List CartLine) :
    ∀ items items' ois total, processCart items cart = .ok (items', ois, total) →
    ∀ k (hk : k < cart.length),
      ∃ it, findItem items (cart.get ⟨k, hk⟩).item_id = some it ∧
        (cart.get ⟨k, hk⟩).quantity ≤
          it.quantity - cartQty (cart.take k) (cart.get ⟨k, hk⟩).item_id := by
  induction cart with
  | nil =>
    intro items items' ois total h k hk
    exact absurd hk (by simp)
  | cons line rest ih =>
    intro items items' ois total h k hk
    simp only [processCart] at h
    split at h
    · exact absurd h (by simp)
    next item hf =>
      split at h
      · exact absurd h (by simp)
      next hq =>
        split at h
        · exact absurd h (by simp)
        next items₁ ois₁ t₁ hp =>
          cases k with
          | zero =>
            refine ⟨item, hf, ?_⟩
            simp only [List.take_zero, cartQty_nil, sub_zero]
            exact not_lt.mp hq
          | succ k =>
            have hk' : k < rest.length := by simpa using hk
            obtain ⟨it₁, hfind₁, hle₁⟩ := ih _ _ _ _ hp k hk'
            rw [findItem_decrementStock] at hfind₁
            obtain ⟨it₀, hfind₀, hmap⟩ := Option.map_eq_some'.mp hfind₁
            refine ⟨it₀, ?_, ?_⟩
            · simpa using hfind₀
            · have hid₀ : it₀.id = (rest.get ⟨k, hk'⟩).item_id := by
                have := List.find?_some hfind₀
                simpa using this
              have htake : (line :: rest).take (k + 1) = line :: rest.take k :=
                List.take_succ_cons
              have hget : (line :: rest).get ⟨k + 1, hk⟩ = rest.get ⟨k, hk'⟩ := rfl
              rw [hget, htake, cartQty_cons]
              by_cases heq : line.item_id = (rest.get ⟨k, hk'⟩).item_id
              · rw [if_pos heq]
                have : it₁ = { it₀ with quantity := it₀.quantity - line.quantity } := by
                  rw [← hmap, hid₀, ← heq]
                  simp
                rw [this] at hle₁
                simp only at hle₁
                omega
              · rw [if_neg heq]
                have : it₁ = it₀ := by
                  rw [← hmap]
                  have : (it₀.id == line.item_id) = false := by
                    simp only [hid₀, beq_eq_false_iff_ne, ne_eq]
                    exact fun hx => heq hx.symm
                  simp [this]
                rw [this] at hle₁
                omega

theorem forall₂_mem_right {α β : Type} {R : α → β → Prop} :
    ∀ {l₁ : List α} {l₂ : List β}, List.Forall₂ R l₁ l₂ → ∀ b ∈ l₂, ∃ a ∈ l₁, R a b := by
  intro l₁ l₂ h
  induction h with
  | nil => intro b hb; exact absurd hb (by simp)
  | @cons a b l₁ l₂ hr _ ih =>
    intro b' hb'
    rcases List.mem_cons.mp hb' with rfl | hb''
    · exact ⟨a, List.mem_cons_self a l₁, hr⟩
    · obtain ⟨a', ha', hrel⟩ := ih b' hb''
      exact ⟨a', List.mem_cons_of_mem a ha', hrel⟩

theorem create_order_ok_inv (st : DBState) (cart : List CartLine) (gid cid nid : ℕ)
    (link : Option String) (res : Order) (st' : DBState)
    (h : create_order st cart gid cid nid link = (.ok res, st')) :
    processCart st.items cart = .ok (st'.items, res.order_items, res.total_amount) ∧
    st'.orders = st.orders ++ [res] ∧
    res.id = nid ∧ res.guest_id = gid ∧ res.company_id = cid ∧
    res.original_order_id = some nid ∧ res.is_split = false ∧
    res.status = .NEW ∧ res.payment_url = link := by
  unfold create_order at h
  split at h
  · exact absurd h (by simp)
  next hne =>
    split at h
    · exact absurd h (by simp)
    next items' ois total hp =>
      cases link with
      | none => exact absurd h (by simp)
      | some url =>
        simp only [Prod.mk.injEq, Except.ok.injEq] at h
        obtain ⟨h1, h2⟩ := h
        subst h1
        subst h2
        exact ⟨hp, rfl, rfl, rfl, rfl, rfl, rfl, rfl, rfl⟩

theorem create_order_err_state (st : DBState) (cart : List CartLine) (gid cid nid : ℕ)
    (link : Option String) (e : OrderErr) (st' : DBState)
    (h : create_order st cart gid cid nid link = (.error e, st'))
    (hne : e ≠ .paymentLinkFailed) : st' = st := by
  unfold create_order at h
  split at h
  · simp only [Prod.mk.injEq] at h
    exact h.2.symm
  next hcond =>
    split at h
    next e' hp =>
      simp only [Prod.mk.injEq] at h
      exact h.2.symm
    next items' ois total hp =>
      cases link with
      | none =>
        simp only [Prod.mk.injEq, Except.error.injEq] at h
        exact absurd h.1.symm hne
      | some url => exact absurd h (by simp)

theorem update_order_ok_inv (st : DBState) (oid : ℕ) (cart : List CartLine)
    (res : Order) (st' : DBState)
    (h : update_order st oid cart = (.ok res, st')) :
    ∃ order added, findOrder st.orders oid = some order ∧
      linesFor st.items cart = some added ∧
      res.order_items = order.order_items ++ added ∧
      res.total_amount = order.total_amount +
        (added.map (fun oi => oi.price * (oi.quantity : ℚ))).sum ∧
      res.id = order.id ∧
      st' = { st with orders := replaceOrder st.orders res } := by
  unfold update_order at h
  split at h
  · exact absurd h (by simp)
  next order hord =>
    split at h
    · exact absurd h (by simp)
    next added hlines =>
      simp only [Prod.mk.injEq, Except.ok.injEq] at h
      obtain ⟨h1, h2⟩ := h
      subst h1
      subst h2
      exact ⟨order, added, hord, hlines, rfl, rfl, rfl, rfl⟩

theorem update_order_items_unchanged (st : DBState) (oid : ℕ) (cart : List CartLine) :
    ((update_order st oid cart).2).items = st.items := by
  unfold update_order
  split
  · rfl
  · split
    · rfl
    · rfl

theorem linesFor_some_iff (items : List Item) :
    ∀ cart : List CartLine, (∃ added, linesFor items cart = some added) ↔
      ∀ l ∈ cart, ∃ oi, currentPriceLine items l = some oi := by
  intro cart
  induction cart with
  | nil => simp [linesFor]
  | cons l rest ih =>
    constructor
    · rintro ⟨added, h⟩
      unfold linesFor at h
      split at h
      next oi ois hoi hois =>
        intro l' hl'
        rcases List.mem_cons.mp hl' with rfl | hl''
        · exact ⟨oi, hoi⟩
        · exact (ih.mp ⟨ois, hois⟩) l' hl''
      next => exact absurd h (by simp)
    · intro hall
      obtain ⟨oi, hoi⟩ := hall l (List.mem_cons_self l rest)
      obtain ⟨ois, hois⟩ := ih.mpr (fun l' hl' => hall l' (List.mem_cons_of_mem l hl'))
      exact ⟨oi :: ois, by simp [linesFor, hoi, hois]⟩

theorem linesFor_lines (items : List Item) :
    ∀ cart added, linesFor items cart = some added →
    List.Forall₂ (fun (l : CartLine) (oi : OrderItem) =>
      oi.item_id = l.item_id ∧ oi.quantity = l.quantity ∧
      (findItem items l.item_id).map (fun it => it.price) = some oi.price) cart added := by
  intro cart
  induction cart with
  | nil =>
    intro added h
    simp only [linesFor, Option.some.injEq] at h
    subst h
    exact List.Forall₂.nil
  | cons l rest ih =>
    intro added h
    unfold linesFor at h
    split at h
    next oi ois hoi hois =>
      simp only [Option.some.injEq] at h
      subst h
      refine List.Forall₂.cons ?_ (ih _ hois)
      unfold currentPriceLine at hoi
      obtain ⟨item, hfind, hmk⟩ := Option.map_eq_some'.mp hoi
      have hid : item.id = l.item_id := by
        have := List.find?_some hfind
        simpa [findItem] using this
      subst hmk
      exact ⟨hid, rfl, by rw [hfind]; rfl⟩
    next => exact absurd h (by simp)

/-- Claim C2: for every successful `create_order` call over a cart, the
created order's `total_amount` is the sum over its lines of
`price * quantity`, each `OrderItem`'s price is a snapshot of the item's
price at order time, and each item's stored quantity after the call equals
its quantity before the call minus the total quantity ordered for it. -/
theorem create_order_conservation (st : DBState) (cart : List CartLine)
    (gid cid nid : ℕ) (link : Option String) (res : Order) (st' : DBState)
    (h : create_order st cart gid cid nid link = (.ok res, st')) :
    res.total_amount = (res.order_items.map (fun oi => oi.price * (oi.quantity : ℚ))).sum ∧
    (∀ oi ∈ res.order_items,
      (findItem st.items oi.item_id).map (fun it => it.price) = some oi.price) ∧
    ∀ id, findItem st'.items id =
      (findItem st.items id).map
        (fun it => { it with quantity := it.quantity - cartQty cart id }) := by
  obtain ⟨hp, -, -, -, -, -, -, -, -⟩ := create_order_ok_inv st cart gid cid nid link res st' h
  refine ⟨processCart_total cart _ _ _ _ hp, ?_, processCart_stock cart _ _ _ _ hp⟩
  intro oi hmem
  obtain ⟨l, -, h1, -, h3⟩ := forall₂_mem_right (processCart_lines cart _ _ _ _ hp) oi hmem
  rw [h1]
  exact h3

theorem create_order_conservation_witness :
    (⟨5, 7, 3, some 5, false, .NEW, 20, some "u", [⟨4, 2, 10⟩]⟩ : Order).total_amount =
      ((⟨5, 7, 3, some 5, false, .NEW, 20, some "u", [⟨4, 2, 10⟩]⟩ : Order).order_items.map
        (fun oi => oi.price * (oi.quantity : ℚ))).sum :=
  (create_order_conservation ⟨[⟨4, "A", 10, 3⟩], []⟩ [⟨4, 2⟩] 7 3 5 (some "u")
    ⟨5, 7, 3, some 5, false, .NEW, 20, some "u", [⟨4, 2, 10⟩]⟩
    ⟨[⟨4, "A", 10, 1⟩], [⟨5, 7, 3, some 5, false, .NEW, 20, some "u", [⟨4, 2, 10⟩]⟩]⟩
    (by norm_num [create_order, processCart, findItem, decrementStock])).1

/-- Claim C5: when `create_order` fails with `ItemNotFound` or
`InsufficientStock`, the committed state is exactly the pre-call state: no
order is created and no item's stored quantity changes (the session is
rolled back without a commit). -/
theorem create_order_all_or_nothing (st : DBState) (cart : List CartLine)
    (gid cid nid : ℕ) (link : Option String) (st' : DBState) :
    (∀ i, create_order st cart gid cid nid link = (.error (.itemNotFound i), st') → st' = st) ∧
    (∀ n, create_order st cart gid cid nid link = (.error (.insufficientStock n), st') → st' = st) :=
  ⟨fun _ h => create_order_err_state st cart gid cid nid link _ st' h (by simp),
   fun _ h => create_order_err_state st cart gid cid nid link _ st' h (by simp)⟩

theorem create_order_all_or_nothing_witness :
    (create_order ⟨[⟨4, "A", 10, 1⟩], []⟩ [⟨4, 2⟩] 7 3 5 (some "u")).2 =
      (⟨[⟨4, "A", 10, 1⟩], []⟩ : DBState) :=
  (create_order_all_or_nothing ⟨[⟨4, "A", 10, 1⟩], []⟩ [⟨4, 2⟩] 7 3 5 (some "u")
    (create_order ⟨[⟨4, "A", 10, 1⟩], []⟩ [⟨4, 2⟩] 7 3 5 (some "u")).2).2 "A"
    (by norm_num [create_order, processCart, findItem, decrementStock])

/-- Claim C10: every order created by a successful `create_order` call is
persisted right after the (appended) order itself, with `is_split = false`
and with `original_order_id` set to the order's own id, never left null. -/
theorem create_order_lineage (st : DBState) (cart : List CartLine) (gid cid nid : ℕ)
    (link : Option String) (res : Order) (st' : DBState)
    (h : create_order st cart gid cid nid link = (.ok res, st')) :
    st'.orders = st.orders ++ [res] ∧ res.is_split = false ∧
    res.original_order_id = some res.id := by
  obtain ⟨-, h2, h3, -, -, h6, h7, -, -⟩ := create_order_ok_inv st cart gid cid nid link res st' h
  exact ⟨h2, h7, by rw [h6, h3]⟩

theorem create_order_lineage_witness :
    (⟨5, 7, 3, some 5, false, .NEW, 20, some "u", [⟨4, 2, 10⟩]⟩ : Order).original_order_id =
      some (⟨5, 7, 3, some 5, false, .NEW, 20, some "u", [⟨4, 2, 10⟩]⟩ : Order).id :=
  (create_order_lineage ⟨[⟨4, "A", 10, 3⟩], []⟩ [⟨4, 2⟩] 7 3 5 (some "u")
    ⟨5, 7, 3, some 5, false, .NEW, 20, some "u", [⟨4, 2, 10⟩]⟩
    ⟨[⟨4, "A", 10, 1⟩], [⟨5, 7, 3, some 5, false, .NEW, 20, some "u", [⟨4, 2, 10⟩]⟩]⟩
    (by norm_num [create_order, processCart, findItem, decrementStock])).2.2

/-- Claim C7: duplicate item ids in one cart stay separate `OrderItem`s —
one per cart line, never merged — each line decrements the shared stock, and
each line's sufficiency check compares against the stock remaining after the
earlier lines' decrements; `update_order` likewise always appends its lines
without merging. -/
theorem append_never_merge :
    (∀ (st : DBState) (cart : List CartLine) (gid cid nid : ℕ) (link : Option String)
        (res : Order) (st' : DBState),
        create_order st cart gid cid nid link = (.ok res, st') →
        List.Forall₂ (fun (l : CartLine) (oi : OrderItem) =>
          oi.item_id = l.item_id ∧ oi.quantity = l.quantity) cart res.order_items ∧
        (∀ k (hk : k < cart.length),
          ∃ it, findItem st.items (cart.get ⟨k, hk⟩).item_id = some it ∧
            (cart.get ⟨k, hk⟩).quantity ≤
              it.quantity - cartQty (cart.take k) (cart.get ⟨k, hk⟩).item_id) ∧
        ∀ id, findItem st'.items id =
          (findItem st.items id).map
            (fun it => { it with quantity := it.quantity - cartQty cart id })) ∧
    (∀ (st : DBState) (oid : ℕ) (cart : List CartLine) (res : Order) (st' : DBState),
        update_order st oid cart = (.ok res, st') →
        ∃ order added, findOrder st.orders oid = some order ∧
          res.order_items = order.order_items ++ added ∧
          List.Forall₂ (fun (l : CartLine) (oi : OrderItem) =>
            oi.item_id = l.item_id ∧ oi.quantity = l.quantity) cart added) := by
  constructor
  · intro st cart gid cid nid link res st' h
    obtain ⟨hp, -, -, -, -, -, -, -, -⟩ := create_order_ok_inv st cart gid cid nid link res st' h
    refine ⟨?_, processCart_prefix cart _ _ _ _ hp, processCart_stock cart _ _ _ _ hp⟩
    exact List.Forall₂.imp (fun _ _ h' => ⟨h'.1, h'.2.1⟩) (processCart_lines cart _ _ _ _ hp)
  · intro st oid cart res st' h
    obtain ⟨order, added, hord, hlines, hitems, -, -, -⟩ := update_order_ok_inv st oid cart res st' h
    exact ⟨order, added, hord, hitems,
      List.Forall₂.imp (fun _ _ h' => ⟨h'.1, h'.2.1⟩) (linesFor_lines st.items cart added hlines)⟩

theorem append_never_merge_witness :
    List.Forall₂ (fun (l : CartLine) (oi : OrderItem) =>
      oi.item_id = l.item_id ∧ oi.quantity = l.quantity) [⟨4, 2⟩, ⟨4, 2⟩]
      (⟨5, 7, 3, some 5, false, .NEW, 40, some "u", [⟨4, 2, 10⟩, ⟨4, 2, 10⟩]⟩ : Order).order_items :=
  (append_never_merge.1 ⟨[⟨4, "A", 10, 4⟩], []⟩ [⟨4, 2⟩, ⟨4, 2⟩] 7 3 5 (some "u")
    ⟨5, 7, 3, some 5, false, .NEW, 40, some "u", [⟨4, 2, 10⟩, ⟨4, 2, 10⟩]⟩
    ⟨[⟨4, "A", 10, 0⟩], [⟨5, 7, 3, some 5, false, .NEW, 40, some "u", [⟨4, 2, 10⟩, ⟨4, 2, 10⟩]⟩]⟩
    (by norm_num [create_order, processCart, findItem, decrementStock])).1

/-- Claim C9: `update_order` never reads or writes any item's stock: the
committed items are unchanged whatever the outcome, success depends only on
the order and the items existing (no sufficiency check against
`Item.quantity`), and on success the operation only appends the new lines at
each item's current price and raises the total by their `price * quantity`
sum. -/
theorem update_order_frame_effect (st : DBState) (oid : ℕ) (cart : List CartLine) :
    ((update_order st oid cart).2).items = st.items ∧
    ((∃ res st', update_order st oid cart = (.ok res, st')) ↔
      ((∃ o, findOrder st.orders oid = some o) ∧
        ∀ l ∈ cart, ∃ oi, currentPriceLine st.items l = some oi)) ∧
    ∀ res st', update_order st oid cart = (.ok res, st') →
      ∃ order added, findOrder st.orders oid = some order ∧
        linesFor st.items cart = some added ∧
        res.order_items = order.order_items ++ added ∧
        res.total_amount = order.total_amount +
          (added.map (fun oi => oi.price * (oi.quantity : ℚ))).sum ∧
        st'.orders = replaceOrder st.orders res ∧ st'.items = st.items := by
  refine ⟨update_order_items_unchanged st oid cart, ?_, ?_⟩
  · constructor
    · rintro ⟨res, st', h⟩
      obtain ⟨order, added, hord, hlines, -, -, -, -⟩ := update_order_ok_inv st oid cart res st' h
      exact ⟨⟨order, hord⟩, (linesFor_some_iff st.items cart).mp ⟨added, hlines⟩⟩
    · rintro ⟨⟨o, ho⟩, hall⟩
      obtain ⟨added, hlines⟩ := (linesFor_some_iff st.items cart).mpr hall
      exact ⟨_, _, by unfold update_order; rw [ho, hlines]⟩
  · intro res st' h
    obtain ⟨order, added, hord, hlines, h1, h2, -, h4⟩ := update_order_ok_inv st oid cart res st' h
    exact ⟨order, added, hord, hlines, h1, h2, by rw [h4], by rw [h4]⟩

theorem update_order_frame_effect_witness :
    ((update_order ⟨[⟨4, "A", 10, 0⟩], [⟨1, 7, 3, some 1, false, .NEW, 6, some "p", [⟨4, 3, 2⟩]⟩]⟩
        1 [⟨4, 5⟩]).2).items = [⟨4, "A", 10, 0⟩] ∧
    (∃ order added,
      findOrder [⟨1, 7, 3, some 1, false, .NEW, 6, some "p", [⟨4, 3, 2⟩]⟩] 1 = some order ∧
      linesFor [⟨4, "A", 10, 0⟩] [⟨4, 5⟩] = some added ∧
      (⟨1, 7, 3, some 1, false, .NEW, 56, some "p", [⟨4, 3, 2⟩, ⟨4, 5, 10⟩]⟩ : Order).order_items =
        order.order_items ++ added ∧
      (⟨1, 7, 3, some 1, false, .NEW, 56, some "p", [⟨4, 3, 2⟩, ⟨4, 5, 10⟩]⟩ : Order).total_amount =
        order.total_amount + (added.map (fun oi => oi.price * (oi.quantity : ℚ))).sum ∧
      (⟨[⟨4, "A", 10, 0⟩],
        [⟨1, 7, 3, some 1, false, .NEW, 56, some "p", [⟨4, 3, 2⟩, ⟨4, 5, 10⟩]⟩]⟩ : DBState).orders =
        replaceOrder [⟨1, 7, 3, some 1, false, .NEW, 6, some "p", [⟨4, 3, 2⟩]⟩]
          ⟨1, 7, 3, some 1, false, .NEW, 56, some "p", [⟨4, 3, 2⟩, ⟨4, 5, 10⟩]⟩ ∧
      (⟨[⟨4, "A", 10, 0⟩],
        [⟨1, 7, 3, some 1, false, .NEW, 56, some "p", [⟨4, 3, 2⟩, ⟨4, 5, 10⟩]⟩]⟩ : DBState).items =
        [⟨4, "A", 10, 0⟩]) :=
  ⟨(update_order_frame_effect ⟨[⟨4, "A", 10, 0⟩],
      [⟨1, 7, 3, some 1, false, .NEW, 6, some "p", [⟨4, 3, 2⟩]⟩]⟩ 1 [⟨4, 5⟩]).1,
   (update_order_frame_effect ⟨[⟨4, "A", 10, 0⟩],
      [⟨1, 7, 3, some 1, false, .NEW, 6, some "p", [⟨4, 3, 2⟩]⟩]⟩ 1 [⟨4, 5⟩]).2.2
     ⟨1, 7, 3, some 1, false, .NEW, 56, some "p", [⟨4, 3, 2⟩, ⟨4, 5, 10⟩]⟩
     ⟨[⟨4, "A", 10, 0⟩], [⟨1, 7, 3, some 1, false, .NEW, 56, some "p", [⟨4, 3, 2⟩, ⟨4, 5, 10⟩]⟩]⟩
     (by norm_num [update_order, findOrder, linesFor, currentPriceLine, findItem, replaceOrder])⟩

theorem processCart_error_shape :
    ∀ (cart : List CartLine) items e, processCart items cart = .error e →
      (∃ i, e = .itemNotFound i) ∨ ∃ n, e = .insufficientStock n := by
  intro cart
  induction cart with
  | nil => intro items e h; exact absurd h (by simp [processCart])
  | cons line rest ih =>
    intro items e h
    simp only [processCart] at h
    split at h
    · simp only [Except.error.injEq] at h
      exact Or.inl ⟨line.item_id, h.symm⟩
    next item hf =>
      split at h
      · simp only [Except.error.injEq] at h
        exact Or.inr ⟨item.name, h.symm⟩
      next hq =>
        split at h
        next e' hp =>
          simp only [Except.error.injEq] at h
          subst h
          exact ih _ _ hp
        next => exact absurd h (by simp)

/-- Claim C8 counterexample: when the payment-link collaborator fails,
`create_order` does not report a (degraded) success — it surfaces the
failure as an error to the caller, even though the order was committed
(the post state holds one order). -/
theorem create_order_payment_failure_counterexample :
    (create_order ⟨[⟨4, "A", 10, 3⟩], []⟩ [⟨4, 2⟩] 7 3 5 none).1 =
      .error .paymentLinkFailed ∧
    (create_order ⟨[⟨4, "A", 10, 3⟩], []⟩ [⟨4, 2⟩] 7 3 5 none).2.orders ≠ [] := by
  constructor
  · norm_num [create_order, processCart, findItem, decrementStock]
  · norm_num [create_order, processCart, findItem, decrementStock]

/-- Claim C8 (amended): when the payment-link collaborator fails during
`create_order`, order creation is not rolled back — the order persists with
an empty payment reference and `original_order_id` unset, its stock
decrements kept — but the failure IS surfaced to the caller as an error
(HTTP 502/500) rather than reported as a degraded success. -/
theorem create_order_payment_failure (st : DBState) (cart : List CartLine)
    (gid cid nid : ℕ) (st' : DBState)
    (h : create_order st cart gid cid nid none = (.error .paymentLinkFailed, st')) :
    ∃ o, st'.orders = st.orders ++ [o] ∧ o.payment_url = none ∧
      o.original_order_id = none ∧ o.is_split = false ∧
      o.total_amount = (o.order_items.map (fun oi => oi.price * (oi.quantity : ℚ))).sum ∧
      ∀ id, findItem st'.items id =
        (findItem st.items id).map
          (fun it => { it with quantity := it.quantity - cartQty cart id }) := by
  unfold create_order at h
  split at h
  · simp at h
  next hcond =>
    split at h
    next e hp =>
      simp only [Prod.mk.injEq, Except.error.injEq] at h
      rcases processCart_error_shape cart st.items e hp with ⟨i, rfl⟩ | ⟨n, rfl⟩ <;>
        exact absurd h.1 (by simp)
    next items' ois total hp =>
      simp only [Prod.mk.injEq] at h
      obtain ⟨-, h2⟩ := h
      subst h2
      refine ⟨⟨nid, gid, cid, none, false, .NEW, total, none, ois⟩, rfl, rfl, rfl, rfl, ?_, ?_⟩
      · exact processCart_total cart _ _ _ _ hp
      · exact processCart_stock cart _ _ _ _ hp

theorem create_order_payment_failure_witness :
    ∃ o, (⟨[⟨4, "A", 10, 1⟩],
        [⟨5, 7, 3, none, false, .NEW, 20, none, [⟨4, 2, 10⟩]⟩]⟩ : DBState).orders =
      (⟨[⟨4, "A", 10, 3⟩], []⟩ : DBState).orders ++ [o] ∧ o.payment_url = none ∧
      o.original_order_id = none ∧ o.is_split = false ∧
      o.total_amount = (o.order_items.map (fun oi => oi.price * (oi.quantity : ℚ))).sum ∧
      ∀ id, findItem (⟨[⟨4, "A", 10, 1⟩],
          [⟨5, 7, 3, none, false, .NEW, 20, none, [⟨4, 2, 10⟩]⟩]⟩ : DBState).items id =
        (findItem (⟨[⟨4, "A", 10, 3⟩], []⟩ : DBState).items id).map
          (fun it => { it with quantity := it.quantity - cartQty [⟨4, 2⟩] id }) :=
  create_order_payment_failure ⟨[⟨4, "A", 10, 3⟩], []⟩ [⟨4, 2⟩] 7 3 5
    ⟨[⟨4, "A", 10, 1⟩], [⟨5, 7, 3, none, false, .NEW, 20, none, [⟨4, 2, 10⟩]⟩]⟩
    (by norm_num [create_order, processCart, findItem, decrementStock])

/-- Claim C1 (code bug): the spec's half-open overlap rule says a request
`12:00-13:00` touching an existing booking `10:00-12:00` at the endpoint
does not conflict, so the room is available; the code's in-memory conflict
check uses closed-interval comparisons (`arrival_dt <= booking_end and
end_dt >= booking_start`), so `is_room_available` reports the room
unavailable (`false`).  On a genuinely overlapping request `11:00-13:00`
the two rules agree. -/
theorem is_room_available_touching_boundary :
    is_room_available [⟨1, 1, .CONFIRMED, 0, 600, 0, 720⟩] 1 0 720 780 none none =
      .ok false ∧
    specHalfOpenConflict ⟨0, 720⟩ ⟨0, 780⟩ ⟨0, 600⟩ ⟨0, 720⟩ = false ∧
    is_room_available [⟨1, 1, .CONFIRMED, 0, 600, 0, 720⟩] 1 0 660 780 none none =
      .ok false ∧
    specHalfOpenConflict ⟨0, 660⟩ ⟨0, 780⟩ ⟨0, 600⟩ ⟨0, 720⟩ = true := by
  refine ⟨?_, rfl, ?_, rfl⟩ <;> rfl

/-- Claim C4 (modelled from the spec, section 4.4): each request allocates
`value` for type `amount` and `total_amount * value / 100` for type
`percent`; when the allocations do not sum exactly to the order total the
whole batch is rejected with `SplitMismatch` and nothing is persisted; on
exact equality exactly one `OrderSplit` is created per request. -/
theorem split_bill_exactness (oid : ℕ) (total : ℚ) (requests : List BillSplit) :
    (∀ recs, split_bill oid total requests = .ok recs →
      recs = requests.map (fun r =>
        ⟨oid, r.label, r.split_type, r.value, allocationOf total r⟩) ∧
      recs.length = requests.length ∧
      (recs.map (fun rec => rec.allocated_amount)).sum = total) ∧
    ((requests.map (allocationOf total)).sum ≠ total →
      split_bill oid total requests =
        .error (.splitMismatch ((requests.map (allocationOf total)).sum) total
          (total - (requests.map (allocationOf total)).sum))) := by
  constructor
  · intro recs h
    unfold split_bill at h
    dsimp only at h
    split at h
    next heq =>
      simp only [Except.ok.injEq] at h
      subst h
      refine ⟨rfl, by simp, ?_⟩
      rw [List.map_map]
      exact heq
    next => exact absurd h (by simp)
  · intro hne
    unfold split_bill
    rw [if_neg hne]

theorem split_bill_exactness_witness :
    (([(⟨1, "a", .amount, 40, 40⟩ : OrderSplitRec), ⟨1, "b", .percent, 60, 60⟩]).map
      (fun rec => rec.allocated_amount)).sum = 100 ∧
    split_bill 1 100 [⟨"a", .amount, 40⟩, ⟨"b", .percent, 50⟩] =
      .error (.splitMismatch
        (([(⟨"a", .amount, 40⟩ : BillSplit), ⟨"b", .percent, 50⟩].map (allocationOf 100)).sum) 100
        (100 - ([(⟨"a", .amount, 40⟩ : BillSplit), ⟨"b", .percent, 50⟩].map (allocationOf 100)).sum)) :=
  ⟨((split_bill_exactness 1 100 [⟨"a", .amount, 40⟩, ⟨"b", .percent, 60⟩]).1
      [⟨1, "a", .amount, 40, 40⟩, ⟨1, "b", .percent, 60, 60⟩]
      (by norm_num [split_bill, allocationOf])).2.2,
   (split_bill_exactness 1 100 [⟨"a", .amount, 40⟩, ⟨"b", .percent, 50⟩]).2
      (by norm_num [allocationOf])⟩

theorem lineQty_nil (id : ℕ) : lineQty [] id = 0 := rfl

theorem lineQty_cons (oi : OrderItem) (rest : List OrderItem) (id : ℕ) :
    lineQty (oi :: rest) id =
      (if oi.item_id = id then oi.quantity else 0) + lineQty rest id := by
  unfold lineQty
  by_cases h : oi.item_id = id <;> simp [h]

theorem lastMatch_get :
    ∀ (l : List OrderItem) (id k : ℕ) (oi : OrderItem), lastMatch l id = some (k, oi) →
      l[k]? = some oi ∧ oi.item_id = id := by
  intro l
  induction l with
  | nil => intro id k oi h; exact absurd h (by simp [lastMatch])
  | cons x rest ih =>
    intro id k oi h
    simp only [lastMatch] at h
    split at h
    next k' x' hrest =>
      simp only [Option.some.injEq, Prod.mk.injEq] at h
      obtain ⟨hk, hoi⟩ := h
      subst hk
      subst hoi
      exact ⟨by simpa using (ih id k' _ hrest).1, (ih id k' _ hrest).2⟩
    next hnone =>
      split at h
      next heq =>
        simp only [Option.some.injEq, Prod.mk.injEq] at h
        obtain ⟨hk, hoi⟩ := h
        subst hk
        subst hoi
        exact ⟨by simp, by simpa using heq⟩
      next => exact absurd h (by simp)

theorem splitCore_spec (ois : List OrderItem) :
    ∀ req nois t upds, splitCore ois req = .ok (nois, t, upds) →
    List.Forall₂ (fun (r : CartLine) (u : ℕ × ℤ × ℚ) =>
      ∃ oi, lastMatch ois r.item_id = some (u.1, oi) ∧ u.2.1 = r.quantity ∧
        u.2.2 = oi.price * (r.quantity : ℚ) ∧ 0 < r.quantity ∧ r.quantity ≤ oi.quantity)
      req upds ∧
    List.Forall₂ (fun (r : CartLine) (noi : OrderItem) =>
      noi.item_id = r.item_id ∧ noi.quantity = r.quantity) req nois ∧
    t = (upds.map (fun (u : ℕ × ℤ × ℚ) => u.2.2)).sum ∧
    t = (nois.map (fun oi => oi.price * (oi.quantity : ℚ))).sum := by
  intro req
  induction req with
  | nil =>
    intro nois t upds h
    simp only [splitCore, Except.ok.injEq, Prod.mk.injEq] at h
    obtain ⟨h1, h2, h3⟩ := h
    subst h1
    subst h2
    subst h3
    exact ⟨.nil, .nil, by simp, by simp⟩
  | cons r rest ih =>
    intro nois t upds h
    simp only [splitCore] at h
    split at h
    · exact absurd h (by simp)
    next k oi hlast =>
      split at h
      · exact absurd h (by simp)
      next hpos =>
        split at h
        · exact absurd h (by simp)
        next hqty =>
          split at h
          · exact absurd h (by simp)
          next nois₁ t₁ upds₁ hrec =>
            simp only [Except.ok.injEq, Prod.mk.injEq] at h
            obtain ⟨h1, h2, h3⟩ := h
            subst h1
            subst h2
            subst h3
            obtain ⟨f1, f2, f3, f4⟩ := ih nois₁ t₁ upds₁ hrec
            have hid := (lastMatch_get ois r.item_id k oi hlast).2
            refine ⟨.cons ⟨oi, hlast, rfl, rfl, by omega, by omega⟩ f1,
                    .cons ⟨hid, rfl⟩ f2, ?_, ?_⟩
            · simp only [List.map_cons, List.sum_cons]
              rw [f3]
            · simp only [List.map_cons, List.sum_cons]
              rw [f4]

theorem modifyAt_getElem :
    ∀ (F : List (OrderItem × Bool)) (k : ℕ) (q : ℤ) (j : ℕ),
      (modifyAt F k q)[j]? =
        if j = k then
          (F[k]?).map (fun p =>
            ({ p.1 with quantity := p.1.quantity - q }, p.2 || decide (p.1.quantity - q ≤ 0)))
        else F[j]? := by
  intro F
  induction F with
  | nil => intro k q j; simp [modifyAt]
  | cons p rest ih =>
    intro k q j
    obtain ⟨oi, d⟩ := p
    cases k with
    | zero =>
      cases j with
      | zero => simp [modifyAt]
      | succ j => simp [modifyAt]
    | succ k =>
      cases j with
      | zero => simp [modifyAt]
      | succ j => simpa [modifyAt] using ih k q j

/-- The aggregate quantity one item id carries among the surviving (not yet
deleted) lines. -/
def survQty (F : List (OrderItem × Bool)) (id : ℕ) : ℤ :=
  lineQty (survivors F) id

theorem survivors_cons_false (oi : OrderItem) (F : List (OrderItem × Bool)) :
    survivors ((oi, false) :: F) = oi :: survivors F := by
  simp [survivors]

theorem survivors_cons_true (oi : OrderItem) (F : List (OrderItem × Bool)) :
    survivors ((oi, true) :: F) = survivors F := by
  simp [survivors]

theorem survivors_map_false (l : List OrderItem) :
    survivors (l.map (fun oi => (oi, false))) = l := by
  induction l with
  | nil => rfl
  | cons oi rest ih => simpa [survivors] using ih

theorem survQty_modifyAt (F : List (OrderItem × Bool)) :
    ∀ (k : ℕ) (q : ℤ) (oi : OrderItem), F[k]? = some (oi, false) → 0 < q →
    q ≤ oi.quantity →
    ∀ id, survQty (modifyAt F k q) id =
      survQty F id - (if oi.item_id = id then q else 0) := by
  induction F with
  | nil => intro k q oi h; exact absurd h (by simp)
  | cons p rest ih =>
    intro k q oi h hpos hle id
    obtain ⟨x, d⟩ := p
    cases k with
    | zero =>
      simp only [List.getElem?_cons_zero, Option.some.injEq, Prod.mk.injEq] at h
      obtain ⟨hx, hd⟩ := h
      subst hx
      subst hd
      simp only [modifyAt]
      by_cases hz : x.quantity - q ≤ 0
      · have hq0 : x.quantity = q := by omega
        have hflag : (false || decide (x.quantity - q ≤ 0)) = true := by simp [hz]
        rw [hflag]
        unfold survQty
        rw [survivors_cons_true, survivors_cons_false, lineQty_cons]
        by_cases hid : x.item_id = id <;> simp [hid, hq0]
      · have hflag : (false || decide (x.quantity - q ≤ 0)) = false := by simp [hz]
        rw [hflag]
        unfold survQty
        rw [survivors_cons_false, survivors_cons_false, lineQty_cons, lineQty_cons]
        by_cases hid : x.item_id = id <;> (simp [hid]; try ring)
    | succ k =>
      simp only [List.getElem?_cons_succ] at h
      simp only [modifyAt]
      unfold survQty
      cases d
      · rw [survivors_cons_false, survivors_cons_false, lineQty_cons, lineQty_cons]
        have := ih k q oi h hpos hle id
        unfold survQty at this
        omega
      · rw [survivors_cons_true, survivors_cons_true]
        have := ih k q oi h hpos hle id
        unfold survQty at this
        omega

theorem forall₂_imp_of_mem {α β : Type} {R S : α → β → Prop} :
    ∀ {l₁ : List α} {l₂ : List β}, List.Forall₂ R l₁ l₂ →
      (∀ a b, a ∈ l₁ → R a b → S a b) → List.Forall₂ S l₁ l₂ := by
  intro l₁ l₂ h
  induction h with
  | nil => intro; exact .nil
  | @cons a b l₁ l₂ hr _ ih =>
    intro himp
    exact .cons (himp a b (List.mem_cons_self a l₁) hr)
      (ih (fun a' b' ha' => himp a' b' (List.mem_cons_of_mem a ha')))

theorem applySplit_survQty :
    ∀ (req : List CartLine) (upds : List (ℕ × ℤ × ℚ)) (F : List (OrderItem × Bool)),
    List.Forall₂ (fun (r : CartLine) (u : ℕ × ℤ × ℚ) =>
      ∃ oi, F[u.1]? = some (oi, false) ∧ oi.item_id = r.item_id ∧
        u.2.1 = r.quantity ∧ 0 < r.quantity ∧ r.quantity ≤ oi.quantity) req upds →
    (req.map (fun l => l.item_id)).Nodup →
    ∀ id, survQty (applySplit F upds) id = survQty F id - cartQty req id := by
  intro req
  induction req with
  | nil =>
    intro upds F h _ id
    cases h
    simp [applySplit, cartQty_nil]
  | cons r rest ih =>
    intro upds F h hnodup id
    rcases h with _ | ⟨hru, htail⟩
    next u upds' =>
      obtain ⟨oi, hget, hid, hqeq, hpos, hle⟩ := hru
      have hcons : (∀ x ∈ rest, ¬x.item_id = r.item_id) ∧
          (rest.map (fun l => l.item_id)).Nodup := by simpa using hnodup
      have hne : ∀ r' ∈ rest, r'.item_id ≠ r.item_id := fun r' hr' => hcons.1 r' hr'
      have htail' : List.Forall₂ (fun (r' : CartLine) (u' : ℕ × ℤ × ℚ) =>
          ∃ oi', (modifyAt F u.1 u.2.1)[u'.1]? = some (oi', false) ∧
            oi'.item_id = r'.item_id ∧ u'.2.1 = r'.quantity ∧ 0 < r'.quantity ∧
            r'.quantity ≤ oi'.quantity) rest upds' := by
        refine forall₂_imp_of_mem htail ?_
        rintro r' u' hr' ⟨oi', hget', hid', h3, h4, h5⟩
        refine ⟨oi', ?_, hid', h3, h4, h5⟩
        rw [modifyAt_getElem]
        have hkne : u'.1 ≠ u.1 := by
          intro hkeq
          rw [hkeq, hget] at hget'
          simp only [Option.some.injEq, Prod.mk.injEq] at hget'
          exact hne r' hr' (by rw [← hid', ← hget'.1]; exact hid)
        rw [if_neg hkne]
        exact hget'
      have hstep := survQty_modifyAt F u.1 u.2.1 oi hget (by rw [hqeq]; exact hpos)
        (by rw [hqeq]; exact hle) id
      have hrec := ih upds' (modifyAt F u.1 u.2.1) htail' hcons.2 id
      simp only [applySplit]
      rw [hrec, hstep, cartQty_cons, hid, hqeq]
      omega

theorem survivors_modifyAt_zero :
    ∀ (F : List (OrderItem × Bool)) (k : ℕ) (q : ℤ) (x : OrderItem),
      x ∈ survivors (modifyAt F k q) → x.quantity = 0 → x ∈ survivors F := by
  intro F
  induction F with
  | nil => intro k q x hx; simp [modifyAt, survivors] at hx
  | cons p rest ih =>
    intro k q x hx hq
    obtain ⟨oi, d⟩ := p
    cases k with
    | zero =>
      simp only [modifyAt] at hx
      by_cases hz : oi.quantity - q ≤ 0
      · rw [show (d || decide (oi.quantity - q ≤ 0)) = true by simp [hz]] at hx
        rw [survivors_cons_true] at hx
        cases d
        · rw [survivors_cons_false]
          exact List.mem_cons_of_mem oi hx
        · rw [survivors_cons_true]
          exact hx
      · rw [show (d || decide (oi.quantity - q ≤ 0)) = d by simp [hz]] at hx
        cases d
        · rw [survivors_cons_false] at hx
          rcases List.mem_cons.mp hx with heq | hmem
          · exact absurd (heq ▸ hq) (by simpa using by omega)
          · rw [survivors_cons_false]
            exact List.mem_cons_of_mem oi hmem
        · rw [survivors_cons_true] at hx
          rw [survivors_cons_true]
          exact hx
    | succ k =>
      simp only [modifyAt] at hx
      cases d
      · rw [survivors_cons_false] at hx ⊢
        rcases List.mem_cons.mp hx with heq | hmem
        · exact heq ▸ List.mem_cons_self oi (survivors rest)
        · exact List.mem_cons_of_mem oi (ih k q x hmem hq)
      · rw [survivors_cons_true] at hx ⊢
        exact ih k q x hx hq

theorem applySplit_zero :
    ∀ (upds : List (ℕ × ℤ × ℚ)) (F : List (OrderItem × Bool)) (x : OrderItem),
      x ∈ survivors (applySplit F upds) → x.quantity = 0 → x ∈ survivors F := by
  intro upds
  induction upds with
  | nil => intro F x hx _; exact hx
  | cons u rest ih =>
    intro F x hx hq
    exact survivors_modifyAt_zero F u.1 u.2.1 x (ih (modifyAt F u.1 u.2.1) x hx hq) hq

theorem split_order_ok_inv (st : DBState) (oid gid nid : ℕ) (req : List CartLine)
    (sl ol : Option String) (res : Order) (st' : DBState)
    (h : split_order st oid gid nid req sl ol = (.ok res, st')) :
    ∃ original nois total upds u1 u2,
      st.orders.find? (fun o => o.id == oid && o.guest_id == gid) = some original ∧
      splitCore original.order_items req = .ok (nois, total, upds) ∧
      sl = some u1 ∧ ol = some u2 ∧
      res = { id := nid, guest_id := original.guest_id, company_id := original.company_id,
              original_order_id := some original.id, is_split := true, status := .NEW,
              total_amount := total, payment_url := some u1, order_items := nois } ∧
      st' = { st with orders :=
                          replaceOrder st.orders
                            ({ original with
                               order_items := survivors
                                 (applySplit
                                   (original.order_items.map (fun oi => (oi, false))) upds),
                               total_amount := original.total_amount -
                                 (upds.map (fun (u : ℕ × ℤ × ℚ) => u.2.2)).sum,
                               payment_url := some u2 }) ++ [res] } := by
  unfold split_order at h
  split at h
  · exact absurd h (by simp)
  next original hfind =>
    split at h
    · exact absurd h (by simp)
    next nois total upds hcore =>
      cases sl with
      | none => exact absurd h (by simp)
      | some u1 =>
        cases ol with
        | none => exact absurd h (by simp)
        | some u2 =>
          simp only [Prod.mk.injEq, Except.ok.injEq] at h
          obtain ⟨h1, h2⟩ := h
          subst h1
          subst h2
          exact ⟨original, nois, total, upds, u1, u2, hfind, hcore, rfl, rfl, rfl, rfl⟩

/-- Claim C3: on every successful `split_order`, the split order's total
plus the updated original's total equals the original's total before the
split; any remaining zero-quantity line was already there before (a line
whose quantity reaches zero through the split is removed); and — for
requests with distinct item ids, where the per-line reading is unambiguous —
each item id's aggregate line quantity in the original drops by exactly the
moved amount. -/
theorem split_order_conservation (st : DBState) (oid gid nid : ℕ) (req : List CartLine)
    (sl ol : Option String) (res : Order) (st' : DBState)
    (h : split_order st oid gid nid req sl ol = (.ok res, st')) :
    ∃ original updated,
      st.orders.find? (fun o => o.id == oid && o.guest_id == gid) = some original ∧
      st'.orders = replaceOrder st.orders updated ++ [res] ∧
      updated.id = original.id ∧
      res.total_amount + updated.total_amount = original.total_amount ∧
      (∀ li ∈ updated.order_items, li.quantity = 0 → li ∈ original.order_items) ∧
      ((req.map (fun l => l.item_id)).Nodup →
        ∀ id, lineQty updated.order_items id =
          lineQty original.order_items id - cartQty req id) := by
  obtain ⟨original, nois, total, upds, u1, u2, hfind, hcore, -, -, hres, hst⟩ :=
    split_order_ok_inv st oid gid nid req sl ol res st' h
  obtain ⟨f1, f2, f3, f4⟩ := splitCore_spec original.order_items req nois total upds hcore
  subst hres
  subst hst
  refine ⟨original, _, hfind, rfl, rfl, ?_, ?_, ?_⟩
  · simp only
    rw [f3]
    ring
  · intro li hli hq
    have := applySplit_zero upds (original.order_items.map (fun oi => (oi, false))) li hli hq
    rwa [survivors_map_false] at this
  · intro hnodup id
    simp only
    have hF : List.Forall₂ (fun (r : CartLine) (u : ℕ × ℤ × ℚ) =>
        ∃ oi, (original.order_items.map (fun oi => (oi, false)))[u.1]? = some (oi, false) ∧
          oi.item_id = r.item_id ∧ u.2.1 = r.quantity ∧ 0 < r.quantity ∧
          r.quantity ≤ oi.quantity) req upds := by
      refine forall₂_imp_of_mem f1 ?_
      rintro r u - ⟨oi, hlast, hq1, -, hq3, hq4⟩
      obtain ⟨hget, hid⟩ := lastMatch_get original.order_items r.item_id u.1 oi hlast
      refine ⟨oi, ?_, hid, hq1, hq3, hq4⟩
      rw [List.getElem?_map, hget]
      rfl
    have := applySplit_survQty req upds (original.order_items.map (fun oi => (oi, false)))
      hF hnodup id
    unfold survQty at this
    rw [survivors_map_false] at this
    exact this

theorem split_order_conservation_witness :
    ∃ original updated,
      List.find? (fun o => o.id == 1 && o.guest_id == 7)
        [(⟨1, 7, 3, some 1, false, .NEW, 10, some "p", [⟨4, 5, 2⟩]⟩ : Order)] = some original ∧
      [(⟨1, 7, 3, some 1, false, .NEW, 6, some "o", [⟨4, 3, 2⟩]⟩ : Order),
       ⟨9, 7, 3, some 1, true, .NEW, 4, some "s", [⟨4, 2, 2⟩]⟩] =
        replaceOrder [⟨1, 7, 3, some 1, false, .NEW, 10, some "p", [⟨4, 5, 2⟩]⟩] updated ++
          [⟨9, 7, 3, some 1, true, .NEW, 4, some "s", [⟨4, 2, 2⟩]⟩] ∧
      updated.id = original.id ∧
      (⟨9, 7, 3, some 1, true, .NEW, 4, some "s", [⟨4, 2, 2⟩]⟩ : Order).total_amount +
        updated.total_amount = original.total_amount ∧
      (∀ li ∈ updated.order_items, li.quantity = 0 → li ∈ original.order_items) ∧
      (([(⟨4, 2⟩ : CartLine)].map (fun l => l.item_id)).Nodup →
        ∀ id, lineQty updated.order_items id =
          lineQty original.order_items id - cartQty [⟨4, 2⟩] id) :=
  split_order_conservation ⟨[], [⟨1, 7, 3, some 1, false, .NEW, 10, some "p", [⟨4, 5, 2⟩]⟩]⟩
    1 7 9 [⟨4, 2⟩] (some "s") (some "o")
    ⟨9, 7, 3, some 1, true, .NEW, 4, some "s", [⟨4, 2, 2⟩]⟩
    ⟨[], [⟨1, 7, 3, some 1, false, .NEW, 6, some "o", [⟨4, 3, 2⟩]⟩,
          ⟨9, 7, 3, some 1, true, .NEW, 4, some "s", [⟨4, 2, 2⟩]⟩]⟩
    (by norm_num [split_order, splitCore, lastMatch, modifyAt, applySplit, survivors,
      replaceOrder])

theorem lineQty_mergeStep (l : List OrderItem) (si : OrderItem) (id : ℕ) :
    lineQty (mergeStep l si) id =
      lineQty l id + (if si.item_id = id then si.quantity else 0) := by
  induction l with
  | nil =>
    simp only [mergeStep, lineQty_cons, lineQty_nil]
    by_cases h : si.item_id = id <;> simp [h]
  | cons oi rest ih =>
    simp only [mergeStep]
    by_cases hoi : oi.item_id = si.item_id
    · rw [if_pos (by simpa using hoi), lineQty_cons, lineQty_cons]
      by_cases hid : si.item_id = id
      · rw [if_pos (by simp; omega : ({ oi with quantity := oi.quantity + si.quantity } : OrderItem).item_id = id)]
        simp only [if_pos hid, if_pos (hoi.trans hid)]
        ring
      · have : ({ oi with quantity := oi.quantity + si.quantity } : OrderItem).item_id ≠ id := by
          simpa using fun hx => hid (by rw [← hoi]; exact hx)
        rw [if_neg this]
        simp only [if_neg hid, if_neg (fun hx => hid (by rw [← hoi]; exact hx) : ¬oi.item_id = id)]
        ring
    · rw [if_neg (by simpa using hoi), lineQty_cons, lineQty_cons, ih]
      ring

theorem lineQty_mergeAll :
    ∀ (sis l : List OrderItem) (id : ℕ),
      lineQty (mergeAll l sis) id = lineQty l id + lineQty sis id := by
  intro sis
  induction sis with
  | nil => intro l id; simp [mergeAll, lineQty_nil]
  | cons si rest ih =>
    intro l id
    simp only [mergeAll]
    rw [ih, lineQty_mergeStep, lineQty_cons]
    ring

theorem mem_replaceOrder {l : List Order} {u o' : Order} (h : o' ∈ replaceOrder l u) :
    o' = u ∨ o' ∈ l := by
  unfold replaceOrder at h
  obtain ⟨o, ho, heq⟩ := List.mem_map.mp h
  by_cases hid : (o.id == u.id)
  · rw [if_pos hid] at heq
    exact Or.inl heq.symm
  · rw [if_neg hid] at heq
    exact Or.inr (heq ▸ ho)

theorem findOrder_replaceOrder :
    ∀ (l : List Order) (u : Order), (∃ o ∈ l, o.id = u.id) →
      findOrder (replaceOrder l u) u.id = some u := by
  intro l
  induction l with
  | nil => rintro u ⟨o, ho, -⟩; exact absurd ho (by simp)
  | cons o rest ih =>
    rintro u ⟨w, hw, hwid⟩
    unfold findOrder replaceOrder
    simp only [List.map_cons, List.find?_cons]
    by_cases ho : (o.id == u.id)
    · rw [if_pos ho]
      simp
    · rw [if_neg ho]
      have : (o.id == u.id) = false := by simpa using ho
      rw [this]
      have hwrest : w ∈ rest := by
        rcases List.mem_cons.mp hw with rfl | hr
        · exact absurd (by simpa using hwid) ho
        · exact hr
      have := ih u ⟨w, hwrest, hwid⟩
      unfold findOrder replaceOrder at this
      simpa using this

theorem findOrder_filter_ne :
    ∀ (l : List Order) (oid nid : ℕ), oid ≠ nid →
      findOrder (l.filter (fun o => o.id != nid)) oid = findOrder l oid := by
  intro l
  induction l with
  | nil => intro oid nid _; rfl
  | cons o rest ih =>
    intro oid nid hne
    unfold findOrder
    by_cases hdrop : (o.id != nid)
    · rw [List.filter_cons_of_pos (by simpa using hdrop)]
      simp only [List.find?_cons]
      cases hpred : (o.id == oid)
      · have := ih oid nid hne
        unfold findOrder at this
        simpa [hpred] using this
      · simp [hpred]
    · rw [List.filter_cons_of_neg (by simpa using hdrop)]
      have hoid : o.id = nid := by simpa using hdrop
      have hpred : (o.id == oid) = false := by
        simp only [beq_eq_false_iff_ne, ne_eq, hoid]
        exact fun hx => hne hx.symm
      simp only [List.find?_cons, hpred]
      exact ih oid nid hne

theorem delete_split_order_ok_inv (st : DBState) (sid gid : ℕ) (dl : Option String)
    (st' : DBState) (h : delete_split_order st sid gid dl = (.ok (), st')) :
    ∃ splitOrd oid original u3,
      st.orders.find? (fun o => o.id == sid && o.guest_id == gid && o.is_split) =
        some splitOrd ∧
      splitOrd.original_order_id = some oid ∧
      findOrder st.orders oid = some original ∧ dl = some u3 ∧
      st' = { st with orders :=
                        (replaceOrder st.orders
                          ({ original with
                             order_items := mergeAll original.order_items splitOrd.order_items,
                             total_amount := original.total_amount +
                               (splitOrd.order_items.map
                                 (fun si => si.price * (si.quantity : ℚ))).sum,
                             payment_url := some u3 })).filter (fun o => o.id != sid) } := by
  unfold delete_split_order at h
  split at h
  · exact absurd h (by simp)
  next splitOrd hfind =>
    split at h
    · exact absurd h (by simp)
    next oid hoid =>
      split at h
      · exact absurd h (by simp)
      next original horig =>
        cases dl with
        | none => exact absurd h (by simp)
        | some u3 =>
          simp only [Prod.mk.injEq, Except.ok.injEq] at h
          obtain ⟨-, h2⟩ := h
          subst h2
          exact ⟨splitOrd, oid, original, u3, hfind, hoid, horig, rfl, rfl⟩

theorem split_order_items_frame (s : DBState) (a b c : ℕ) (r : List CartLine)
    (x y : Option String) : ((split_order s a b c r x y).2).items = s.items := by
  unfold split_order
  split
  · rfl
  · split
    · rfl
    · split
      · rfl
      · rfl

theorem delete_split_order_items_frame (s : DBState) (a b : ℕ) (x : Option String) :
    ((delete_split_order s a b x).2).items = s.items := by
  unfold delete_split_order
  split
  · rfl
  · split
    · rfl
    · split
      · rfl
      · split
        · rfl
        · rfl

theorem split_order_ignores_items (s : DBState) (xs : List Item) (a b c : ℕ)
    (r : List CartLine) (x y : Option String) :
    (split_order ⟨xs, s.orders⟩ a b c r x y).1 = (split_order s a b c r x y).1 ∧
    ((split_order ⟨xs, s.orders⟩ a b c r x y).2).orders =
      ((split_order s a b c r x y).2).orders := by
  unfold split_order
  dsimp only
  rcases hf : s.orders.find? (fun o => o.id == a && o.guest_id == b) with _ | o <;>
    simp only [hf]
  · exact ⟨by trivial, by trivial⟩
  · rcases hs : splitCore o.order_items r with e | ⟨nois, t, upds⟩ <;> simp only [hs]
    · exact ⟨by trivial, by trivial⟩
    · cases x <;> cases y <;> exact ⟨by trivial, by trivial⟩

theorem delete_split_order_ignores_items (s : DBState) (xs : List Item) (a b : ℕ)
    (x : Option String) :
    (delete_split_order ⟨xs, s.orders⟩ a b x).1 = (delete_split_order s a b x).1 ∧
    ((delete_split_order ⟨xs, s.orders⟩ a b x).2).orders =
      ((delete_split_order s a b x).2).orders := by
  unfold delete_split_order
  dsimp only
  rcases hf : s.orders.find? (fun o => o.id == a && o.guest_id == b && o.is_split)
      with _ | so <;> simp only [hf]
  · exact ⟨by trivial, by trivial⟩
  · rcases ho : so.original_order_id with _ | oid <;> simp only [ho]
    · exact ⟨by trivial, by trivial⟩
    · rcases hg : findOrder s.orders oid with _ | original <;> simp only [hg]
      · exact ⟨by trivial, by trivial⟩
      · cases x <;> exact ⟨by trivial, by trivial⟩

theorem lineQty_eq_cartQty :
    ∀ {req : List CartLine} {nois : List OrderItem},
      List.Forall₂ (fun (r : CartLine) (noi : OrderItem) =>
        noi.item_id = r.item_id ∧ noi.quantity = r.quantity) req nois →
      ∀ id, lineQty nois id = cartQty req id := by
  intro req nois h
  induction h with
  | nil => intro id; simp [lineQty_nil, cartQty_nil]
  | @cons r noi req' nois' hr _ ih =>
    intro id
    rw [lineQty_cons, cartQty_cons, ih, hr.1]
    by_cases hid : r.item_id = id <;> simp [hid, hr.2]

/-- Claim C6 (amended): for every order and split request with distinct item
ids accepted by `split_order`, deleting the resulting split order restores
the original order's per-item aggregate line quantities and its
`total_amount` to their pre-split values; and neither `split_order` nor
`delete_split_order` reads or writes any `Item`'s stock quantity (the items
table is unchanged in every outcome, and both results are independent of its
contents). -/
theorem split_delete_roundtrip (st : DBState) (oid gid nid : ℕ) (req : List CartLine)
    (sl ol dl : Option String) (res : Order) (st1 st2 : DBState)
    (hfresh : ∀ o ∈ st.orders, o.id ≠ nid)
    (hnodup : (req.map (fun l => l.item_id)).Nodup)
    (h1 : split_order st oid gid nid req sl ol = (.ok res, st1))
    (h2 : delete_split_order st1 nid gid dl = (.ok (), st2)) :
    (∃ original restored,
      st.orders.find? (fun o => o.id == oid && o.guest_id == gid) = some original ∧
      findOrder st2.orders oid = some restored ∧
      restored.total_amount = original.total_amount ∧
      (∀ id, lineQty restored.order_items id = lineQty original.order_items id) ∧
      st1.items = st.items ∧ st2.items = st.items) ∧
    (∀ (s : DBState) (a b c : ℕ) (r : List CartLine) (x y : Option String),
      ((split_order s a b c r x y).2).items = s.items) ∧
    (∀ (s : DBState) (a b : ℕ) (x : Option String),
      ((delete_split_order s a b x).2).items = s.items) ∧
    (∀ (s : DBState) (xs : List Item) (a b c : ℕ) (r : List CartLine) (x y : Option String),
      (split_order ⟨xs, s.orders⟩ a b c r x y).1 = (split_order s a b c r x y).1 ∧
      ((split_order ⟨xs, s.orders⟩ a b c r x y).2).orders =
        ((split_order s a b c r x y).2).orders) ∧
    (∀ (s : DBState) (xs : List Item) (a b : ℕ) (x : Option String),
      (delete_split_order ⟨xs, s.orders⟩ a b x).1 = (delete_split_order s a b x).1 ∧
      ((delete_split_order ⟨xs, s.orders⟩ a b x).2).orders =
        ((delete_split_order s a b x).2).orders) := by
  refine ⟨?_, split_order_items_frame, delete_split_order_items_frame,
    split_order_ignores_items, delete_split_order_ignores_items⟩
  obtain ⟨original, nois, total, upds, u1, u2, hfind, hcore, -, -, hres, hst1⟩ :=
    split_order_ok_inv st oid gid nid req sl ol res st1 h1
  obtain ⟨f1, f2, f3, f4⟩ := splitCore_spec original.order_items req nois total upds hcore
  have hido : original.id = oid ∧ original.guest_id = gid := by
    simpa using List.find?_some hfind
  have hmem : original ∈ st.orders := List.mem_of_find?_eq_some hfind
  have hnidne : original.id ≠ nid := hfresh original hmem
  subst hres
  subst hst1
  generalize hU : ({ original with
    order_items := survivors
      (applySplit (original.order_items.map (fun oi => (oi, false))) upds),
    total_amount := original.total_amount -
      (upds.map (fun (u : ℕ × ℤ × ℚ) => u.2.2)).sum,
    payment_url := some u2 } : Order) = upd at h2
  generalize hR : ({
    id := nid, guest_id := original.guest_id, company_id := original.company_id,
    original_order_id := some original.id, is_split := true, status := .NEW,
    total_amount := total, payment_url := some u1, order_items := nois } : Order) = resO at h2
  have hupd_id : upd.id = original.id := by rw [← hU]
  have hupd_items : upd.order_items = survivors
      (applySplit (original.order_items.map (fun oi => (oi, false))) upds) := by rw [← hU]
  have hupd_total : upd.total_amount = original.total_amount -
      (upds.map (fun (u : ℕ × ℤ × ℚ) => u.2.2)).sum := by rw [← hU]
  have hres_id : resO.id = nid := by rw [← hR]
  have hres_guest : resO.guest_id = gid := by rw [← hR]; exact hido.2
  have hres_split : resO.is_split = true := by rw [← hR]
  have hres_ooid : resO.original_order_id = some original.id := by rw [← hR]
  have hres_items : resO.order_items = nois := by rw [← hR]
  obtain ⟨splitOrd', oid', original1, u3, hsp, hoid2, horig2, -, hst2⟩ :=
    delete_split_order_ok_inv _ nid gid dl st2 h2
  dsimp only at hsp horig2 hst2
  have hupdmem : upd ∈ replaceOrder st.orders upd := by
    unfold replaceOrder
    refine List.mem_map.mpr ⟨original, hmem, ?_⟩
    rw [if_pos (by simp [hupd_id])]
  have myfind2 : (replaceOrder st.orders upd ++ [resO]).find?
      (fun o => o.id == nid && o.guest_id == gid && o.is_split) = some resO := by
    rw [List.find?_append]
    have hpre : (replaceOrder st.orders upd).find?
        (fun o => o.id == nid && o.guest_id == gid && o.is_split) = none := by
      rw [List.find?_eq_none]
      intro o' ho'
      simp only [Bool.and_eq_true, beq_iff_eq]
      rintro ⟨⟨hid', -⟩, -⟩
      rcases mem_replaceOrder ho' with rfl | hmem'
      · exact hnidne (hupd_id ▸ hid')
      · exact hfresh o' hmem' hid'
    rw [hpre, Option.none_or]
    exact List.find?_cons_of_pos _ (by simp [hres_id, hres_guest, hres_split])
  rw [myfind2] at hsp
  have hspeq : splitOrd' = resO := (Option.some.inj hsp).symm
  rw [hspeq] at hoid2 hst2
  rw [hres_ooid] at hoid2
  have hoideq : oid' = original.id := (Option.some.inj hoid2).symm
  rw [hoideq] at horig2
  have myfind3 : findOrder (replaceOrder st.orders upd ++ [resO]) original.id =
      some upd := by
    unfold findOrder
    rw [List.find?_append]
    have hp := findOrder_replaceOrder st.orders upd ⟨original, hmem, hupd_id.symm⟩
    rw [hupd_id] at hp
    unfold findOrder at hp
    rw [hp]
    rfl
  rw [myfind3] at horig2
  have horig1eq : original1 = upd := (Option.some.inj horig2).symm
  rw [horig1eq] at hst2
  subst hst2
  have hupdqty : ∀ id,
      lineQty (survivors
        (applySplit (original.order_items.map (fun oi => (oi, false))) upds)) id =
      lineQty original.order_items id - cartQty req id := by
    intro id
    have hF : List.Forall₂ (fun (r : CartLine) (u : ℕ × ℤ × ℚ) =>
        ∃ oi, (original.order_items.map (fun oi => (oi, false)))[u.1]? = some (oi, false) ∧
          oi.item_id = r.item_id ∧ u.2.1 = r.quantity ∧ 0 < r.quantity ∧
          r.quantity ≤ oi.quantity) req upds := by
      refine forall₂_imp_of_mem f1 ?_
      rintro r u - ⟨oi, hlast, hq1, -, hq3, hq4⟩
      obtain ⟨hget, hid⟩ := lastMatch_get original.order_items r.item_id u.1 oi hlast
      refine ⟨oi, ?_, hid, hq1, hq3, hq4⟩
      rw [List.getElem?_map, hget]
      rfl
    have := applySplit_survQty req upds (original.order_items.map (fun oi => (oi, false)))
      hF hnodup id
    unfold survQty at this
    rw [survivors_map_false] at this
    exact this
  refine ⟨original,
    { upd with
        total_amount := upd.total_amount +
          (resO.order_items.map (fun si => si.price * (si.quantity : ℚ))).sum,
        payment_url := some u3,
        order_items := mergeAll upd.order_items resO.order_items },
    hfind, ?_, ?_, ?_, rfl, rfl⟩
  · dsimp only
    rw [← hido.1, ← hupd_id,
      findOrder_filter_ne _ _ _ (by rw [hupd_id]; exact hnidne)]
    exact findOrder_replaceOrder _ _ ⟨upd, List.mem_append_left _ hupdmem, rfl⟩
  · dsimp only
    rw [hupd_total, hres_items, ← f3, ← f4]
    ring
  · intro id
    dsimp only
    rw [lineQty_mergeAll, hupd_items, hupdqty id, hres_items, lineQty_eq_cartQty f2 id]
    ring

/-- Claim C6 counterexample: `split_order` accepts a split request that
names the same item twice (each line is validated against the unmodified
quantity map), over-splitting the original line `(item 4, qty 3)` into
`2 + 2 = 4` units; after `delete_split_order` the original order carries
quantity `4` for item 4 instead of the pre-split `3`, so the round trip does
not restore the per-item line quantities (the total is still restored). -/
theorem split_delete_roundtrip_counterexample :
    split_order ⟨[], [⟨1, 7, 3, some 1, false, .NEW, 6, some "p", [⟨4, 3, 2⟩]⟩]⟩
        1 7 9 [⟨4, 2⟩, ⟨4, 2⟩] (some "s") (some "o") =
      (.ok ⟨9, 7, 3, some 1, true, .NEW, 8, some "s", [⟨4, 2, 2⟩, ⟨4, 2, 2⟩]⟩,
       ⟨[], [⟨1, 7, 3, some 1, false, .NEW, -2, some "o", []⟩,
             ⟨9, 7, 3, some 1, true, .NEW, 8, some "s", [⟨4, 2, 2⟩, ⟨4, 2, 2⟩]⟩]⟩) ∧
    delete_split_order
        ⟨[], [⟨1, 7, 3, some 1, false, .NEW, -2, some "o", []⟩,
              ⟨9, 7, 3, some 1, true, .NEW, 8, some "s", [⟨4, 2, 2⟩, ⟨4, 2, 2⟩]⟩]⟩
        9 7 (some "n") =
      (.ok (), ⟨[], [⟨1, 7, 3, some 1, false, .NEW, 6, some "n", [⟨4, 4, 2⟩]⟩]⟩) ∧
    lineQty [(⟨4, 4, 2⟩ : OrderItem)] 4 ≠ lineQty [(⟨4, 3, 2⟩ : OrderItem)] 4 := by
  refine ⟨?_, ?_, ?_⟩ <;>
    norm_num [split_order, splitCore, lastMatch, modifyAt, applySplit, survivors,
      replaceOrder, delete_split_order, mergeAll, mergeStep, findOrder, lineQty]

theorem split_delete_roundtrip_witness :
    ∃ original restored,
      List.find? (fun o => o.id == 1 && o.guest_id == 7)
        [(⟨1, 7, 3, some 1, false, .NEW, 10, some "p", [⟨4, 5, 2⟩]⟩ : Order)] =
        some original ∧
      findOrder (⟨[], [⟨1, 7, 3, some 1, false, .NEW, 10, some "n",
          [⟨4, 5, 2⟩]⟩]⟩ : DBState).orders 1 = some restored ∧
      restored.total_amount = original.total_amount ∧
      (∀ id, lineQty restored.order_items id = lineQty original.order_items id) ∧
      (⟨[], [⟨1, 7, 3, some 1, false, .NEW, 6, some "o", [⟨4, 3, 2⟩]⟩,
             ⟨9, 7, 3, some 1, true, .NEW, 4, some "s", [⟨4, 2, 2⟩]⟩]⟩ : DBState).items =
        (⟨[], [⟨1, 7, 3, some 1, false, .NEW, 10, some "p", [⟨4, 5, 2⟩]⟩]⟩ : DBState).items ∧
      (⟨[], [⟨1, 7, 3, some 1, false, .NEW, 10, some "n", [⟨4, 5, 2⟩]⟩]⟩ : DBState).items =
        (⟨[], [⟨1, 7, 3, some 1, false, .NEW, 10, some "p", [⟨4, 5, 2⟩]⟩]⟩ : DBState).items :=
  (split_delete_roundtrip
    ⟨[], [⟨1, 7, 3, some 1, false, .NEW, 10, some "p", [⟨4, 5, 2⟩]⟩]⟩ 1 7 9 [⟨4, 2⟩]
    (some "s") (some "o") (some "n")
    ⟨9, 7, 3, some 1, true, .NEW, 4, some "s", [⟨4, 2, 2⟩]⟩
    ⟨[], [⟨1, 7, 3, some 1, false, .NEW, 6, some "o", [⟨4, 3, 2⟩]⟩,
          ⟨9, 7, 3, some 1, true, .NEW, 4, some "s", [⟨4, 2, 2⟩]⟩]⟩
    ⟨[], [⟨1, 7, 3, some 1, false, .NEW, 10, some "n", [⟨4, 5, 2⟩]⟩]⟩
    (by decide) (by decide)
    (by norm_num [split_order, splitCore, lastMatch, modifyAt, applySplit, survivors,
      replaceOrder])
    (by norm_num [delete_split_order, mergeAll, mergeStep, findOrder, replaceOrder])).1
